import Mathlib

/-!
Verification of the drift-analysis engine of the audio sync checker
(`app.py`).  The development shallowly embeds the numeric core of
`compute_offset` (silence trimming, RMS envelope extraction, min-max
normalization, centered cross-correlation, argmax lag selection, the
millisecond conversion with 2-decimal rounding and the review flag) and
the per-request batch loop of `upload_files`, and proves the spec's
claims about them.

Number representation: the Python code computes with IEEE floats; every
float is a rational number, so the post-envelope arithmetic is embedded
over an arbitrary linear ordered field (instantiated at `ℚ` for
executable statements and at `ℝ` for the stages that take a square
root).  Rounding of `round(x, 2)` is embedded as round-half-to-even on
the scaled rational, Python's documented rounding mode.
-/

namespace AudioSync

variable {α : Type} [LinearOrderedField α]

/-- Largest element of a list: `arr.max()` of numpy for a nonempty
array (`0` is returned for `[]`, a case the code never reaches). -/
def listMax : List α → α
  | [] => 0
  | x :: xs => xs.foldl max x

/-- Smallest element of a list: `arr.min()` of numpy for a nonempty
array (`0` for `[]`, never reached by the code). -/
def listMin : List α → α
  | [] => 0
  | x :: xs => xs.foldl min x

lemma le_foldl_max (a : α) (l : List α) : a ≤ l.foldl max a := by
  induction l generalizing a with
  | nil => exact le_refl a
  | cons y ys ih => exact le_trans (le_max_left a y) (ih (max a y))

lemma mem_le_foldl_max (a : α) (l : List α) : ∀ x ∈ l, x ≤ l.foldl max a := by
  induction l generalizing a with
  | nil => intro x hx; cases hx
  | cons y ys ih =>
    intro x hx
    rcases List.mem_cons.mp hx with h | h
    · subst h; exact le_trans (le_max_right a x) (le_foldl_max _ _)
    · exact ih (max a y) x h

lemma foldl_max_mem (a : α) (l : List α) : l.foldl max a ∈ a :: l := by
  induction l generalizing a with
  | nil => simp
  | cons y ys ih =>
    have h := ih (max a y)
    rw [List.foldl_cons]
    rcases List.mem_cons.mp h with h' | h'
    · rw [h']
      rcases max_choice a y with h'' | h'' <;> rw [h''] <;> simp
    · exact List.mem_cons_of_mem _ (List.mem_cons_of_mem _ h')

lemma foldl_max_assoc (a b : α) (l : List α) :
    l.foldl max (max a b) = max a (l.foldl max b) := by
  induction l generalizing b with
  | nil => rfl
  | cons z zs ih =>
    rw [List.foldl_cons, List.foldl_cons, max_assoc, ih (max b z)]

lemma foldl_min_le (a : α) (l : List α) : l.foldl min a ≤ a := by
  induction l generalizing a with
  | nil => exact le_refl a
  | cons y ys ih => exact le_trans (ih (min a y)) (min_le_left a y)

lemma foldl_min_le_mem (a : α) (l : List α) : ∀ x ∈ l, l.foldl min a ≤ x := by
  induction l generalizing a with
  | nil => intro x hx; cases hx
  | cons y ys ih =>
    intro x hx
    rcases List.mem_cons.mp hx with h | h
    · subst h
      rw [List.foldl_cons]
      exact le_trans (foldl_min_le _ _) (min_le_right a x)
    · exact ih (min a y) x h

lemma foldl_min_mem (a : α) (l : List α) : l.foldl min a ∈ a :: l := by
  induction l generalizing a with
  | nil => simp
  | cons y ys ih =>
    have h := ih (min a y)
    rw [List.foldl_cons]
    rcases List.mem_cons.mp h with h' | h'
    · rw [h']
      rcases min_choice a y with h'' | h'' <;> rw [h''] <;> simp
    · exact List.mem_cons_of_mem _ (List.mem_cons_of_mem _ h')

lemma foldl_min_assoc (a b : α) (l : List α) :
    l.foldl min (min a b) = min a (l.foldl min b) := by
  induction l generalizing b with
  | nil => rfl
  | cons z zs ih =>
    rw [List.foldl_cons, List.foldl_cons, min_assoc, ih (min b z)]

lemma le_listMax (l : List α) : ∀ x ∈ l, x ≤ listMax l := by
  cases l with
  | nil => intro x hx; cases hx
  | cons y ys =>
    intro x hx
    rcases List.mem_cons.mp hx with h | h
    · subst h; exact le_foldl_max _ _
    · exact mem_le_foldl_max y ys x h

lemma listMax_mem {l : List α} (h : l ≠ []) : listMax l ∈ l := by
  cases l with
  | nil => exact absurd rfl h
  | cons y ys => exact foldl_max_mem y ys

lemma listMax_cons (x : α) {xs : List α} (h : xs ≠ []) :
    listMax (x :: xs) = max x (listMax xs) := by
  cases xs with
  | nil => exact absurd rfl h
  | cons y ys =>
    show ys.foldl max (max x y) = max x (ys.foldl max y)
    exact foldl_max_assoc x y ys

lemma listMin_le (l : List α) : ∀ x ∈ l, listMin l ≤ x := by
  cases l with
  | nil => intro x hx; cases hx
  | cons y ys =>
    intro x hx
    rcases List.mem_cons.mp hx with h | h
    · subst h; exact foldl_min_le _ _
    · exact foldl_min_le_mem y ys x h

lemma listMin_mem {l : List α} (h : l ≠ []) : listMin l ∈ l := by
  cases l with
  | nil => exact absurd rfl h
  | cons y ys => exact foldl_min_mem y ys

lemma listMin_cons (x : α) {xs : List α} (h : xs ≠ []) :
    listMin (x :: xs) = min x (listMin xs) := by
  cases xs with
  | nil => exact absurd rfl h
  | cons y ys =>
    show ys.foldl min (min x y) = min x (ys.foldl min y)
    exact foldl_min_assoc x y ys

lemma listMin_le_listMax {l : List α} (h : l ≠ []) : listMin l ≤ listMax l :=
  le_listMax l _ (listMin_mem h)

/-- Index of the first occurrence of the maximum: `np.argmax`, whose
documented tie-break selects the lowest index among maximizers. -/
def argmaxIdx : List α → ℕ
  | [] => 0
  | x :: xs => if listMax (x :: xs) ≤ x then 0 else argmaxIdx xs + 1

lemma argmaxIdx_cons (x : α) (xs : List α) :
    argmaxIdx (x :: xs) = if listMax (x :: xs) ≤ x then 0 else argmaxIdx xs + 1 :=
  rfl

lemma argmaxIdx_lt_length {l : List α} (h : l ≠ []) : argmaxIdx l < l.length := by
  induction l with
  | nil => exact absurd rfl h
  | cons x xs ih =>
    rw [argmaxIdx_cons]
    split
    · simp
    · rename_i hmax
      have hxs : xs ≠ [] := by
        intro he; subst he
        exact hmax (le_refl x)
      simpa using Nat.succ_lt_succ (ih hxs)

lemma lt_listMax_of_not_le {x : α} {xs : List α}
    (hmax : ¬ listMax (x :: xs) ≤ x) : x < listMax xs := by
  have hxs : xs ≠ [] := by
    intro he; subst he
    exact hmax (le_refl x)
  rw [listMax_cons x hxs, max_le_iff] at hmax
  push_neg at hmax
  exact hmax (le_refl x)

lemma getD_argmaxIdx {l : List α} (h : l ≠ []) :
    l.getD (argmaxIdx l) 0 = listMax l := by
  induction l with
  | nil => exact absurd rfl h
  | cons x xs ih =>
    rw [argmaxIdx_cons]
    split
    · rename_i hmax
      have hx : x ≤ listMax (x :: xs) := le_listMax _ x (List.mem_cons_self x xs)
      simpa using le_antisymm hx hmax
    · rename_i hmax
      have hxs : xs ≠ [] := by
        intro he; subst he
        exact hmax (le_refl x)
      have hlt : x < listMax xs := lt_listMax_of_not_le hmax
      rw [List.getD_cons_succ, ih hxs, listMax_cons x hxs,
        max_eq_right (le_of_lt hlt)]

lemma getD_le_argmaxIdx (l : List α) (j : ℕ) (hj : j < l.length) :
    l.getD j 0 ≤ l.getD (argmaxIdx l) 0 := by
  have hne : l ≠ [] := List.ne_nil_of_length_pos (lt_of_le_of_lt (Nat.zero_le j) hj)
  rw [getD_argmaxIdx hne, List.getD_eq_getElem l 0 hj]
  exact le_listMax l _ (List.getElem_mem hj)

lemma getD_lt_argmaxIdx (l : List α) (j : ℕ) (hj : j < argmaxIdx l) :
    l.getD j 0 < l.getD (argmaxIdx l) 0 := by
  induction l generalizing j with
  | nil => simp [argmaxIdx] at hj
  | cons x xs ih =>
    rw [argmaxIdx_cons] at hj ⊢
    by_cases hmax : listMax (x :: xs) ≤ x
    · rw [if_pos hmax] at hj
      exact absurd hj (Nat.not_lt_zero j)
    · have hxs : xs ≠ [] := by
        intro he; subst he
        exact hmax (le_refl x)
      rw [if_neg hmax] at hj ⊢
      rw [List.getD_cons_succ]
      cases j with
      | zero =>
        rw [List.getD_cons_zero, getD_argmaxIdx hxs]
        exact lt_listMax_of_not_le hmax
      | succ j' =>
        rw [List.getD_cons_succ]
        exact ih j' (Nat.lt_of_succ_lt_succ hj)

lemma argmaxIdx_eq_of (l : List α) (i : ℕ) (hi : i < l.length)
    (hle : ∀ j, j < l.length → l.getD j 0 ≤ l.getD i 0)
    (hlt : ∀ j, j < i → l.getD j 0 < l.getD i 0) : argmaxIdx l = i := by
  have hne : l ≠ [] := List.ne_nil_of_length_pos (lt_of_le_of_lt (Nat.zero_le i) hi)
  have ha : argmaxIdx l < l.length := argmaxIdx_lt_length hne
  have heq : l.getD (argmaxIdx l) 0 = l.getD i 0 :=
    le_antisymm (hle _ ha) (getD_le_argmaxIdx l i hi)
  rcases lt_trichotomy (argmaxIdx l) i with h | h | h
  · exact absurd heq (ne_of_lt (hlt _ h))
  · exact h
  · exact absurd heq (ne_of_gt (getD_lt_argmaxIdx l i h))

/-- Value of a list at an integer index, `0` outside the index range:
the zero-padded view of a finite signal that linear cross-correlation
is defined over. -/
def getZ (l : List α) (i : ℤ) : α :=
  if 0 ≤ i ∧ i < l.length then l.getD i.toNat 0 else 0

/-- Linear cross-correlation of the zero-padded signals `a` and `b` at
integer shift `L`: the sum over `n` of `a(n + L) * b(n)`. -/
def corrAt (a b : List α) (L : ℤ) : α :=
  ∑ n ∈ Finset.range b.length, getZ a ((n : ℤ) + L) * getZ b (n : ℤ)

/-- Embedding of `scipy.signal.correlate(a, b, mode='same')`: the
output has the length of the first input and is the centered slice of
the full linear cross-correlation, so output entry `i` is the
correlation at shift `i - len(b) // 2` — the convention the spec states
for the lag estimator. -/
def correlateSame (a b : List α) : List α :=
  (List.range a.length).map (fun (i : ℕ) => corrAt a b ((i : ℤ) - (b.length / 2 : ℕ)))

lemma getZ_neg {l : List α} {i : ℤ} (h : i < 0) : getZ l i = 0 := by
  unfold getZ
  rw [if_neg]
  rintro ⟨h0, _⟩
  omega

lemma getZ_ge {l : List α} {i : ℤ} (h : (l.length : ℤ) ≤ i) : getZ l i = 0 := by
  unfold getZ
  rw [if_neg]
  rintro ⟨_, h1⟩
  omega

lemma getZ_natCast (l : List α) (n : ℕ) : getZ l (n : ℤ) = l.getD n 0 := by
  unfold getZ
  split
  · rw [Int.toNat_natCast]
  · rename_i hcond
    rw [List.getD_eq_default]
    omega

lemma getZ_toNat_cast {l : List α} {i : ℤ} (h : 0 ≤ i) :
    getZ l i = getZ l (i.toNat : ℤ) := by
  rw [Int.toNat_of_nonneg h]

lemma getZ_nil (i : ℤ) : getZ ([] : List α) i = 0 := by
  unfold getZ
  rw [if_neg]
  rintro ⟨h0, h1⟩
  simp at h1
  omega

lemma getZ_zero_cons (t : List α) (i : ℤ) : getZ ((0 : α) :: t) i = getZ t (i - 1) := by
  unfold getZ
  simp only [List.length_cons]
  rcases lt_trichotomy i 0 with h | h | h
  · rw [if_neg (by omega), if_neg (by omega)]
  · subst h
    rw [if_pos (by constructor <;> omega), if_neg (by omega)]
    rfl
  · by_cases hc : i < (t.length : ℤ) + 1
    · rw [if_pos (by push_cast; omega), if_pos (by omega)]
      have ht : i.toNat = (i - 1).toNat + 1 := by omega
      rw [ht, List.getD_cons_succ]
    · rw [if_neg (by push_cast; omega), if_neg (by omega)]

lemma getZ_replicate_zero_append (d : ℕ) (l : List α) (i : ℤ) :
    getZ (List.replicate d (0 : α) ++ l) i = getZ l (i - d) := by
  induction d generalizing i with
  | zero => simp
  | succ d ih =>
    rw [List.replicate_succ, List.cons_append, getZ_zero_cons, ih]
    congr 1
    omega

lemma corrAt_replicate_zero_append (d : ℕ) (a b : List α) (L : ℤ) :
    corrAt (List.replicate d (0 : α) ++ a) b L = corrAt a b (L - d) := by
  unfold corrAt
  apply Finset.sum_congr rfl
  intro n _
  rw [getZ_replicate_zero_append]
  have harg : (n : ℤ) + L - d = n + (L - d) := by ring
  rw [harg]

lemma corrAt_self_zero (a : List α) :
    corrAt a a 0 = ∑ n ∈ Finset.range a.length, (getZ a (n : ℤ)) ^ 2 := by
  unfold corrAt
  apply Finset.sum_congr rfl
  intro n _
  rw [add_zero, sq]

lemma sum_getZ_sq_shift_le (a : List α) (L : ℤ) :
    ∑ n ∈ Finset.range a.length, (getZ a ((n : ℤ) + L)) ^ 2 ≤
      ∑ n ∈ Finset.range a.length, (getZ a (n : ℤ)) ^ 2 := by
  classical
  set N := a.length with hN
  set S : Finset ℕ := (Finset.range N).filter (fun n => 0 ≤ (n : ℤ) + L) with hS
  have h1 : ∑ n ∈ Finset.range N, (getZ a ((n : ℤ) + L)) ^ 2 =
      ∑ n ∈ S, (getZ a ((n : ℤ) + L)) ^ 2 := by
    apply (Finset.sum_subset (Finset.filter_subset _ _) _).symm
    intro x hx hxS
    have hneg : (x : ℤ) + L < 0 := by
      by_contra hcon
      push_neg at hcon
      exact hxS (Finset.mem_filter.mpr ⟨hx, hcon⟩)
    rw [getZ_neg hneg]
    exact zero_pow two_ne_zero
  have h2 : ∑ n ∈ S, (getZ a ((n : ℤ) + L)) ^ 2 =
      ∑ n ∈ S, (getZ a ((((n : ℤ) + L).toNat : ℤ))) ^ 2 := by
    apply Finset.sum_congr rfl
    intro n hn
    have hpos : 0 ≤ (n : ℤ) + L := (Finset.mem_filter.mp hn).2
    rw [← getZ_toNat_cast hpos]
  have hinj : ∀ x ∈ S, ∀ y ∈ S, ((x : ℤ) + L).toNat = ((y : ℤ) + L).toNat → x = y := by
    intro x hx y hy hxy
    have hx' : 0 ≤ (x : ℤ) + L := (Finset.mem_filter.mp hx).2
    have hy' : 0 ≤ (y : ℤ) + L := (Finset.mem_filter.mp hy).2
    omega
  have h3 : ∑ n ∈ S, (getZ a ((((n : ℤ) + L).toNat : ℤ))) ^ 2 =
      ∑ m ∈ S.image (fun n : ℕ => ((n : ℤ) + L).toNat), (getZ a (m : ℤ)) ^ 2 := by
    rw [Finset.sum_image hinj]
  have h4 : ∑ m ∈ S.image (fun n : ℕ => ((n : ℤ) + L).toNat), (getZ a (m : ℤ)) ^ 2 ≤
      ∑ m ∈ Finset.range N, (getZ a (m : ℤ)) ^ 2 := by
    set T := S.image (fun n : ℕ => ((n : ℤ) + L).toNat) with hT
    have h5 : ∑ m ∈ T, (getZ a (m : ℤ)) ^ 2 = ∑ m ∈ T ∩ Finset.range N, (getZ a (m : ℤ)) ^ 2 := by
      apply (Finset.sum_subset Finset.inter_subset_left _).symm
      intro x hx hxI
      have hge : N ≤ x := by
        by_contra hcon
        push_neg at hcon
        exact hxI (Finset.mem_inter.mpr ⟨hx, Finset.mem_range.mpr hcon⟩)
      rw [getZ_ge (by exact_mod_cast Int.ofNat_le.mpr hge)]
      exact zero_pow two_ne_zero
    rw [h5]
    apply Finset.sum_le_sum_of_subset_of_nonneg Finset.inter_subset_right
    intro m _ _
    exact sq_nonneg _
  rw [h1, h2, h3]
  exact h4

lemma corrAt_self_le (a : List α) (L : ℤ) : corrAt a a L ≤ corrAt a a 0 := by
  have key : 2 * corrAt a a L ≤
      (∑ n ∈ Finset.range a.length, (getZ a ((n : ℤ) + L)) ^ 2) +
        ∑ n ∈ Finset.range a.length, (getZ a (n : ℤ)) ^ 2 := by
    unfold corrAt
    rw [Finset.mul_sum, ← Finset.sum_add_distrib]
    apply Finset.sum_le_sum
    intro n _
    have h := two_mul_le_add_sq (getZ a ((n : ℤ) + L)) (getZ a (n : ℤ))
    linarith
  have h2 := sum_getZ_sq_shift_le a L
  have h3 := corrAt_self_zero a
  linarith

lemma corrAt_self_lt_of_neg (a : List α) (L : ℤ) (hL : L < 0)
    (ha : ∃ i : ℤ, getZ a i ≠ 0) : corrAt a a L < corrAt a a 0 := by
  by_contra hcon
  push_neg at hcon
  have heq : corrAt a a L = corrAt a a 0 := le_antisymm (corrAt_self_le a L) hcon
  set N := a.length with hN
  have hsum : ∑ n ∈ Finset.range N, (getZ a ((n : ℤ) + L) - getZ a (n : ℤ)) ^ 2 =
      ((∑ n ∈ Finset.range N, (getZ a ((n : ℤ) + L)) ^ 2) +
        ∑ n ∈ Finset.range N, (getZ a (n : ℤ)) ^ 2) - 2 * corrAt a a L := by
    unfold corrAt
    rw [Finset.mul_sum, ← Finset.sum_add_distrib, ← Finset.sum_sub_distrib]
    apply Finset.sum_congr rfl
    intro n _
    ring
  have hA := sum_getZ_sq_shift_le a L
  have hB := corrAt_self_zero a
  have hzero : ∑ n ∈ Finset.range N, (getZ a ((n : ℤ) + L) - getZ a (n : ℤ)) ^ 2 = 0 := by
    have hle : ∑ n ∈ Finset.range N, (getZ a ((n : ℤ) + L) - getZ a (n : ℤ)) ^ 2 ≤ 0 := by
      rw [hsum, heq]
      linarith
    have hge : 0 ≤ ∑ n ∈ Finset.range N, (getZ a ((n : ℤ) + L) - getZ a (n : ℤ)) ^ 2 :=
      Finset.sum_nonneg fun n _ => sq_nonneg _
    linarith
  have hterm : ∀ n ∈ Finset.range N, getZ a ((n : ℤ) + L) = getZ a (n : ℤ) := by
    intro n hn
    have h := (Finset.sum_eq_zero_iff_of_nonneg fun i _ => sq_nonneg _).mp hzero n hn
    have h' := sq_eq_zero_iff.mp h
    linarith [h']
  have hzero_all : ∀ n : ℕ, n < N → getZ a (n : ℤ) = 0 := by
    intro n
    induction n using Nat.strong_induction_on with
    | _ n ih =>
      intro hn
      have h1 : getZ a ((n : ℤ) + L) = getZ a (n : ℤ) :=
        hterm n (Finset.mem_range.mpr hn)
      rcases le_or_lt 0 ((n : ℤ) + L) with hpos | hneg
      · have hlt : ((n : ℤ) + L).toNat < n := by omega
        have h2 : getZ a ((n : ℤ) + L) = getZ a ((((n : ℤ) + L).toNat : ℕ) : ℤ) :=
          getZ_toNat_cast hpos
        have h3 : getZ a ((((n : ℤ) + L).toNat : ℕ) : ℤ) = 0 :=
          ih _ hlt (by omega)
        rw [← h1, h2, h3]
      · rw [getZ_neg hneg] at h1
        exact h1.symm
  have hall : ∀ i : ℤ, getZ a i = 0 := by
    intro i
    rcases lt_trichotomy i 0 with h | h | h
    · exact getZ_neg h
    · subst h
      by_cases h0 : 0 < N
      · exact hzero_all 0 h0
      · exact getZ_ge (by omega)
    · by_cases hge : (N : ℤ) ≤ i
      · exact getZ_ge hge
      · push_neg at hge
        have : getZ a i = getZ a ((i.toNat : ℕ) : ℤ) := getZ_toNat_cast (le_of_lt h)
        rw [this]
        exact hzero_all i.toNat (by omega)
  rcases ha with ⟨i, hi⟩
  exact hi (hall i)

lemma length_correlateSame (a b : List α) : (correlateSame a b).length = a.length := by
  rw [correlateSame, List.length_map, List.length_range]

lemma getD_correlateSame (a b : List α) (i : ℕ) (hi : i < a.length) :
    (correlateSame a b).getD i 0 = corrAt a b ((i : ℤ) - (b.length / 2 : ℕ)) := by
  unfold correlateSame
  have hlen : i < ((List.range a.length).map
      (fun (i : ℕ) => corrAt a b ((i : ℤ) - (b.length / 2 : ℕ)))).length := by
    rw [List.length_map, List.length_range]
    exact hi
  rw [List.getD_eq_getElem _ 0 hlen, List.getElem_map, List.getElem_range]

/-- First-argmax of the centered cross-correlation of a zero-delayed
copy against the original: the peak sits exactly `d` frames to the
right of the center index. -/
lemma argmax_correlateSame_delayed (e : List α) (d : ℕ)
    (he : ∃ i : ℤ, getZ e i ≠ 0) :
    argmaxIdx (correlateSame (List.replicate d (0 : α) ++ e) e) = d + e.length / 2 := by
  have hN : 0 < e.length := by
    rcases he with ⟨i, hi⟩
    by_contra h
    push_neg at h
    have he' : e = [] := List.length_eq_zero.mp (Nat.le_zero.mp h)
    subst he'
    exact hi (getZ_nil i)
  have hlen_c : (correlateSame (List.replicate d (0 : α) ++ e) e).length = d + e.length := by
    rw [length_correlateSame]
    simp
  have hgetD : ∀ i, i < d + e.length →
      (correlateSame (List.replicate d (0 : α) ++ e) e).getD i 0 =
        corrAt e e ((i : ℤ) - (e.length / 2 : ℕ) - d) := by
    intro i hi
    rw [getD_correlateSame _ e i (by simp; omega), corrAt_replicate_zero_append]
  apply argmaxIdx_eq_of
  · rw [hlen_c]
    omega
  · intro j hj
    rw [hlen_c] at hj
    rw [hgetD j hj, hgetD (d + e.length / 2) (by omega)]
    have harg : ((d + e.length / 2 : ℕ) : ℤ) - (e.length / 2 : ℕ) - d = 0 := by
      push_cast
      ring
    rw [harg]
    exact corrAt_self_le e _
  · intro j hj
    rw [hgetD j (by omega), hgetD (d + e.length / 2) (by omega)]
    have harg : ((d + e.length / 2 : ℕ) : ℤ) - (e.length / 2 : ℕ) - d = 0 := by
      push_cast
      ring
    rw [harg]
    apply corrAt_self_lt_of_neg e _ (by omega) he

/-- Min-max normalization of an RMS envelope, from the source line
`ref_rms = (ref_rms - ref_rms.min()) / (ref_rms.max() - ref_rms.min() + 1e-10)`. -/
def normalizeEnv (e : List α) : List α :=
  e.map (fun x => (x - listMin e) / (listMax e - listMin e + 1 / 10000000000))

lemma length_normalizeEnv (e : List α) : (normalizeEnv e).length = e.length :=
  List.length_map e _

lemma listMin_replicate_append (d : ℕ) {e : List α} (he : e ≠ []) :
    listMin (List.replicate d (listMin e) ++ e) = listMin e := by
  induction d with
  | zero => simp
  | succ d ih =>
    rw [List.replicate_succ, List.cons_append]
    have hne : List.replicate d (listMin e) ++ e ≠ [] := by
      intro hc
      exact he (List.append_eq_nil.mp hc).2
    rw [listMin_cons _ hne, ih, min_self]

lemma listMax_replicate_append (d : ℕ) {e : List α} (he : e ≠ []) :
    listMax (List.replicate d (listMin e) ++ e) = listMax e := by
  induction d with
  | zero => simp
  | succ d ih =>
    rw [List.replicate_succ, List.cons_append]
    have hne : List.replicate d (listMin e) ++ e ≠ [] := by
      intro hc
      exact he (List.append_eq_nil.mp hc).2
    rw [listMax_cons _ hne, ih, max_eq_right (listMin_le_listMax he)]

/-- A candidate envelope equal to the reference envelope preceded by
`d` frames at the reference's minimum energy level: its events occur
exactly `d` frames later than the reference's. -/
def delayedBy (e : List α) (d : ℕ) : List α := List.replicate d (listMin e) ++ e

lemma normalizeEnv_delayedBy (e : List α) (d : ℕ) (he : e ≠ []) :
    normalizeEnv (delayedBy e d) = List.replicate d (0 : α) ++ normalizeEnv e := by
  unfold normalizeEnv delayedBy
  rw [listMin_replicate_append d he, listMax_replicate_append d he, List.map_append,
    List.map_replicate, sub_self, zero_div]

lemma normalizeEnv_mem_bounds {e : List α} {v : α} (hv : v ∈ normalizeEnv e) :
    0 ≤ v ∧ v < 1 := by
  rcases List.mem_map.mp hv with ⟨x, hx, hfx⟩
  have he : e ≠ [] := by
    intro hc
    subst hc
    cases hx
  have hm : listMin e ≤ x := listMin_le e x hx
  have hM : x ≤ listMax e := le_listMax e x hx
  have hmM : listMin e ≤ listMax e := listMin_le_listMax he
  have hD : 0 < listMax e - listMin e + 1 / 10000000000 := by
    have : (0 : α) < 1 / 10000000000 := by norm_num
    linarith
  constructor
  · rw [← hfx]
    exact div_nonneg (by linarith) (le_of_lt hD)
  · rw [← hfx]
    rw [div_lt_one hD]
    have : (0 : α) < 1 / 10000000000 := by norm_num
    linarith

lemma normalizeEnv_max_attained {e : List α} (he : e ≠ []) :
    ∃ v ∈ normalizeEnv e,
      v = (listMax e - listMin e) / (listMax e - listMin e + 1 / 10000000000) ∧
        ∀ w ∈ normalizeEnv e, w ≤ v := by
  refine ⟨(listMax e - listMin e) / (listMax e - listMin e + 1 / 10000000000), ?_, rfl, ?_⟩
  · exact List.mem_map_of_mem _ (listMax_mem he)
  · intro w hw
    rcases List.mem_map.mp hw with ⟨x, hx, hfx⟩
    have hM : x ≤ listMax e := le_listMax e x hx
    have hmM : listMin e ≤ listMax e := listMin_le_listMax he
    have hD : 0 < listMax e - listMin e + 1 / 10000000000 := by
      have : (0 : α) < 1 / 10000000000 := by norm_num
      linarith
    rw [← hfx]
    exact (div_le_div_iff_of_pos_right hD).mpr (by linarith)

lemma normalizeEnv_exists_ne_zero {e : List α} (hnc : listMin e ≠ listMax e) :
    ∃ i : ℤ, getZ (normalizeEnv e) i ≠ 0 := by
  have he : e ≠ [] := by
    intro hc
    subst hc
    exact hnc rfl
  rcases List.mem_iff_getElem.mp (listMax_mem he) with ⟨j, hj, hx⟩
  refine ⟨(j : ℤ), ?_⟩
  rw [getZ_natCast]
  have hjm : j < (normalizeEnv e).length := by
    rw [length_normalizeEnv]
    exact hj
  rw [List.getD_eq_getElem _ 0 hjm]
  unfold normalizeEnv
  rw [List.getElem_map, hx]
  have hmM : listMin e ≤ listMax e := listMin_le_listMax he
  have hlt : listMin e < listMax e := lt_of_le_of_ne hmM hnc
  have hD : 0 < listMax e - listMin e + 1 / 10000000000 := by
    have : (0 : α) < 1 / 10000000000 := by norm_num
    linarith
  exact ne_of_gt (div_pos (by linarith) hD)

/-- Round-half-to-even to the nearest integer: the rounding mode of
Python's builtin `round`. -/
def roundHalfEven (q : ℚ) : ℤ :=
  if q - ⌊q⌋ < 1 / 2 then ⌊q⌋
  else if 1 / 2 < q - ⌊q⌋ then ⌊q⌋ + 1
  else if Even ⌊q⌋ then ⌊q⌋ else ⌊q⌋ + 1

/-- Python's `round(x, 2)`: round-half-to-even at the second decimal. -/
def round2 (q : ℚ) : ℚ := (roundHalfEven (q * 100) : ℚ) / 100

lemma roundHalfEven_of_lt_half (q : ℚ) (n : ℤ) (h1 : (n : ℚ) ≤ q)
    (h2 : q - n < 1 / 2) : roundHalfEven q = n := by
  have hfl : ⌊q⌋ = n := Int.floor_eq_iff.mpr ⟨h1, by linarith⟩
  rw [roundHalfEven, hfl, if_pos h2]

lemma roundHalfEven_of_half_lt (q : ℚ) (n : ℤ) (h1 : 1 / 2 < q - n)
    (h2 : q < (n : ℚ) + 1) : roundHalfEven q = n + 1 := by
  have hfl : ⌊q⌋ = n := Int.floor_eq_iff.mpr ⟨by linarith, by linarith⟩
  rw [roundHalfEven, hfl, if_neg (by linarith), if_pos h1]

lemma round2_zero : round2 0 = 0 := by
  rw [round2, zero_mul, roundHalfEven_of_lt_half 0 0 (by norm_num) (by norm_num)]
  norm_num

lemma abs_roundHalfEven_sub_le (q : ℚ) : |(roundHalfEven q : ℚ) - q| ≤ 1 / 2 := by
  have h0 : (⌊q⌋ : ℚ) ≤ q := Int.floor_le q
  have h1 : q - ⌊q⌋ < 1 := by
    have := Int.lt_floor_add_one q
    linarith
  unfold roundHalfEven
  split_ifs with hf hg hev
  · rw [abs_sub_comm, abs_of_nonneg (by linarith)]
    linarith
  · push_cast
    rw [abs_of_nonneg (by linarith)]
    linarith
  · have he : q - ⌊q⌋ = 1 / 2 := le_antisymm (not_lt.mp hg) (not_lt.mp hf)
    rw [abs_sub_comm, abs_of_nonneg (by linarith)]
    linarith
  · have he : q - ⌊q⌋ = 1 / 2 := le_antisymm (not_lt.mp hg) (not_lt.mp hf)
    push_cast
    rw [abs_of_nonneg (by linarith)]
    linarith

lemma abs_round2_ge (q : ℚ) : |q| - 1 / 200 ≤ |round2 q| := by
  have h1 := abs_roundHalfEven_sub_le (q * 100)
  have h2 : |q * 100| - |(roundHalfEven (q * 100) : ℚ)| ≤
      |q * 100 - (roundHalfEven (q * 100) : ℚ)| := abs_sub_abs_le_abs_sub _ _
  rw [abs_sub_comm] at h2
  have h3 : |q * 100| = |q| * 100 := by
    rw [abs_mul]
    norm_num
  rw [round2, abs_div]
  have h4 : |(100 : ℚ)| = 100 := by norm_num
  rw [h4]
  rw [h3] at h2
  linarith

/-- The lag in frames, from source lines 50-51: normalize both
envelopes, cross-correlate the test envelope against the reference
envelope in mode same, take `np.argmax` and subtract
`len(ref_rms) // 2`. -/
def lagOf (refEnv testEnv : List α) : ℤ :=
  (argmaxIdx (correlateSame (normalizeEnv testEnv) (normalizeEnv refEnv)) : ℤ) -
    ((normalizeEnv refEnv).length / 2 : ℕ)

/-- Source line 52: `offset_ms = lag * hop_length / sr * 1000`. -/
def offsetMsOf (sr : ℚ) (hop : ℕ) (lag : ℤ) : ℚ := lag * hop / sr * 1000

/-- Source line 54: `needs_review = abs(offset_ms) > threshold_ms`,
evaluated on the unrounded offset. -/
def needsReviewOf (threshold off : ℚ) : Bool := decide (threshold < |off|)

/-- Source lines 42-56 after envelope extraction: the pair
`(round(offset_ms, 2), needs_review)` returned by `compute_offset`. -/
def computeOffsetCore (refEnv testEnv : List α) (sr : ℚ) (hop : ℕ) (threshold : ℚ) :
    ℚ × Bool :=
  (round2 (offsetMsOf sr hop (lagOf refEnv testEnv)),
    needsReviewOf threshold (offsetMsOf sr hop (lagOf refEnv testEnv)))

lemma lagOf_delayedBy (e : List α) (d : ℕ) (hnc : listMin e ≠ listMax e) :
    lagOf e (delayedBy e d) = d := by
  have he : e ≠ [] := by
    intro hc
    subst hc
    exact hnc rfl
  unfold lagOf
  rw [normalizeEnv_delayedBy e d he,
    argmax_correlateSame_delayed (normalizeEnv e) d (normalizeEnv_exists_ne_zero hnc)]
  omega

lemma lagOf_self (e : List α) (hnc : listMin e ≠ listMax e) : lagOf e e = 0 := by
  have h := lagOf_delayedBy e 0 hnc
  rw [delayedBy, List.replicate_zero, List.nil_append] at h
  simpa using h

/-- Modelled from the spec: the SilenceTrimmer stage (the source calls
`librosa.effects.trim`, which is not code of this repository).  Leading
and trailing samples whose energy (square) falls below the threshold
are removed; per the spec an entirely sub-threshold buffer is returned
unchanged, so the stage never yields an empty result. -/
def trimSilence (τ : α) (y : List α) : List α :=
  if (((y.dropWhile (fun x => decide (x ^ 2 < τ))).reverse.dropWhile
      (fun x => decide (x ^ 2 < τ))).reverse).isEmpty then y
  else ((y.dropWhile (fun x => decide (x ^ 2 < τ))).reverse.dropWhile
      (fun x => decide (x ^ 2 < τ))).reverse

lemma trimSilence_ne_nil (τ : α) {y : List α} (hy : y ≠ []) : trimSilence τ y ≠ [] := by
  rw [trimSilence]
  split
  · exact hy
  · rename_i ht
    intro hc
    rw [hc] at ht
    exact ht rfl

lemma trimSilence_all_below (τ : α) (y : List α) (h : ∀ x ∈ y, x ^ 2 < τ) :
    trimSilence τ y = y := by
  have hdrop : y.dropWhile (fun x => decide (x ^ 2 < τ)) = [] :=
    List.dropWhile_eq_nil_iff.mpr fun x hx => decide_eq_true (h x hx)
  rw [trimSilence, hdrop]
  simp

lemma trim_decomp_general {β : Type} (p : β → Bool) (y : List β) :
    ∃ pre suf, y = pre ++ ((y.dropWhile p).reverse.dropWhile p).reverse ++ suf ∧
      (∀ x ∈ pre, p x = true) ∧ (∀ x ∈ suf, p x = true) := by
  refine ⟨y.takeWhile p, ((y.dropWhile p).reverse.takeWhile p).reverse, ?_, ?_, ?_⟩
  · have h1 : y = y.takeWhile p ++ y.dropWhile p :=
      (List.takeWhile_append_dropWhile p y).symm
    have h2 : (y.dropWhile p).reverse =
        (y.dropWhile p).reverse.takeWhile p ++ (y.dropWhile p).reverse.dropWhile p :=
      (List.takeWhile_append_dropWhile p _).symm
    have h3 := congrArg List.reverse h2
    rw [List.reverse_reverse, List.reverse_append] at h3
    conv_lhs => rw [h1, h3]
    exact (List.append_assoc _ _ _).symm
  · intro x hx
    exact List.mem_takeWhile_imp hx
  · intro x hx
    rw [List.mem_reverse] at hx
    exact List.mem_takeWhile_imp hx

lemma trimSilence_decomp (τ : α) (y : List α) :
    ∃ pre suf, y = pre ++ trimSilence τ y ++ suf ∧
      (∀ x ∈ pre, x ^ 2 < τ) ∧ (∀ x ∈ suf, x ^ 2 < τ) := by
  rw [trimSilence]
  split
  · refine ⟨[], [], by simp, ?_, ?_⟩ <;> intro x hx <;> cases hx
  · rcases trim_decomp_general (fun x => decide (x ^ 2 < τ)) y with
      ⟨pre, suf, heq, hpre, hsuf⟩
    exact ⟨pre, suf, heq, fun x hx => of_decide_eq_true (hpre x hx),
      fun x hx => of_decide_eq_true (hsuf x hx)⟩

/-- Modelled from the spec: the EnvelopeExtractor frames a buffer into
consecutive, non-overlapping frames of hop-length samples (the framing
inside `librosa.feature.rms` is not code of this repository; the spec
fixes this convention). -/
def chunksOf {β : Type} (k : ℕ) : List β → List (List β)
  | [] => []
  | x :: xs =>
      if k = 0 then []
      else (x :: xs).take k :: chunksOf k ((x :: xs).drop k)
  termination_by l => l.length
  decreasing_by simp; omega

lemma chunksOf_cons {β : Type} (k : ℕ) (x : β) (xs : List β) :
    chunksOf k (x :: xs) =
      if k = 0 then [] else (x :: xs).take k :: chunksOf k ((x :: xs).drop k) := by
  rw [chunksOf]

lemma chunksOf_ne_nil {β : Type} (k : ℕ) {l : List β} (hk : k ≠ 0) (hl : l ≠ []) :
    chunksOf k l ≠ [] := by
  cases l with
  | nil => exact absurd rfl hl
  | cons x xs =>
    rw [chunksOf_cons, if_neg hk]
    exact List.cons_ne_nil _ _

/-- Modelled from the spec: the EnvelopeExtractor computes
root-mean-square energy over each frame (`librosa.feature.rms` is not
code of this repository). -/
noncomputable def rmsFrames (y : List ℝ) (hop : ℕ) : List ℝ :=
  (chunksOf hop y).map (fun f => Real.sqrt ((f.map (fun x => x ^ 2)).sum / f.length))

lemma rmsFrames_ne_nil {y : List ℝ} {hop : ℕ} (hk : hop ≠ 0) (hy : y ≠ []) :
    rmsFrames y hop ≠ [] := by
  rw [rmsFrames]
  intro hc
  exact chunksOf_ne_nil hop hk hy (List.map_eq_nil_iff.mp hc)

/-- Lines 26-56 of `compute_offset`: the decode results (the
`librosa.load` calls are modelled from the spec as external decodes
that either fail or yield a sample buffer), the emptiness guard of
lines 32-33, silence trimming, RMS envelope extraction and the numeric
core; every failure is rewrapped by the except clause of lines 58-61
with the prefix `Failed to process audio:`. -/
noncomputable def computeOffset (refLoad testLoad : Except String (List ℝ))
    (τ : ℝ) (sr : ℚ) (hop : ℕ) (threshold : ℚ) : Except String (ℚ × Bool) :=
  match refLoad, testLoad with
  | .error e, _ => .error ("Failed to process audio: " ++ e)
  | .ok _, .error e => .error ("Failed to process audio: " ++ e)
  | .ok ref, .ok test =>
      if ref.length = 0 ∨ test.length = 0 then
        .error ("Failed to process audio: One of the audio files is empty or could not be loaded")
      else
        .ok (computeOffsetCore (rmsFrames (trimSilence τ ref) hop)
          (rmsFrames (trimSilence τ test) hop) sr hop threshold)

/-- JSON-like values, for the response payloads of `upload_files`. -/
inductive JVal : Type
  | s (v : String)
  | q (v : ℚ)
  | b (v : Bool)
  | arr (l : List JVal)
  | obj (fields : List (String × JVal))

/-- A successful per-candidate entry, from the dict literal at source
lines 163-167: exactly the keys `filename`, `offset_ms` and
`needs_review`. -/
def resultEntry (filename : String) (r : ℚ × Bool) : JVal :=
  .obj [("filename", .s filename), ("offset_ms", .q r.1), ("needs_review", .b r.2)]

/-- The per-candidate loop of `upload_files` lines 159-173: each
candidate outcome is appended to the results in input order, and the
first failure makes the whole request return an error message
immediately, discarding every other candidate. -/
def processBatch : List (String × Except String (ℚ × Bool)) → Except String (List JVal)
  | [] => .ok []
  | (name, .error e) :: _ => .error ("Error processing " ++ name ++ ": " ++ e)
  | (name, .ok r) :: rest =>
      match processBatch rest with
      | .error e => .error e
      | .ok l => .ok (resultEntry name r :: l)

/-- The response of `upload_files` lines 169-182: an object with the
single key `error` on failure, otherwise the reference filename and the
results array. -/
def uploadResponse (refName : String)
    (cands : List (String × Except String (ℚ × Bool))) : JVal :=
  match processBatch cands with
  | .error e => .obj [("error", .s e)]
  | .ok l => .obj [("reference", .s refName), ("results", .arr l)]

/-- Field lookup in an object payload. -/
def getField (j : JVal) (k : String) : Option JVal :=
  match j with
  | .obj fields => List.lookup k fields
  | _ => none

/-- The result entries of a response; empty when the response is an
error payload without a `results` field. -/
def resultEntries (j : JVal) : List JVal :=
  match getField j "results" with
  | some (.arr l) => l
  | _ => []

/-- Whether a response carries a result entry for the given filename. -/
def hasEntryFor (j : JVal) (name : String) : Bool :=
  (resultEntries j).any fun ent =>
    match getField ent "filename" with
    | some (.s v) => v == name
    | _ => false

/-- The keys of an object payload, in order. -/
def keysOf (j : JVal) : List String :=
  match j with
  | .obj fields => fields.map Prod.fst
  | _ => []

/-- Modelled from the spec: the desync axis of the DriftClassifier
(section 4.6), which is not implemented in the source. -/
def desyncIssues (off : ℚ) : List String :=
  if 100 < |off| then ["severe desync"]
  else if 50 < |off| then ["minor desync"]
  else []

/-- Modelled from the spec: the match-score axis of the
DriftClassifier (section 4.6), not implemented in the source. -/
def scoreIssues (score : ℚ) : List String :=
  if score < 30 then ["content mismatch - likely wrong pairing"]
  else if score < 60 then ["low confidence match"]
  else []

/-- Modelled from the spec: the full issue set of the DriftClassifier,
the two axes evaluated independently (section 4.6). -/
def specIssues (off score : ℚ) : List String :=
  desyncIssues off ++ scoreIssues score

/-- Modelled from the spec: `needs_review` is true iff the issue set is
non-empty (section 4.6). -/
def specNeedsReview (off score : ℚ) : Bool :=
  !(specIssues off score).isEmpty

/-- Modelled from the spec: the FingerprintService score for two files
given by byte content; byte-identical files score 100 percent by the
explicit override of section 4.5, otherwise the underlying comparator's
scaled percentage is returned. -/
def specMatchScore (f g : List ℕ) (base : ℚ) : ℚ :=
  if f = g then 100 else base

lemma listMin_01 : listMin ([0, 1] : List ℚ) = 0 := by
  norm_num [listMin, min_def]

lemma listMax_01 : listMax ([0, 1] : List ℚ) = 1 := by
  norm_num [listMax, max_def]

lemma nonconst_01 : listMin ([0, 1] : List ℚ) ≠ listMax ([0, 1] : List ℚ) := by
  rw [listMin_01, listMax_01]
  norm_num

lemma round2_50 : round2 50 = 50 := by
  rw [round2, show (50 : ℚ) * 100 = 5000 by norm_num,
    roundHalfEven_of_lt_half 5000 5000 (by norm_num) (by norm_num)]
  norm_num

lemma round2_50001 : round2 (50001 / 1000) = 50 := by
  rw [round2, show (50001 / 1000 : ℚ) * 100 = 50001 / 10 by norm_num,
    roundHalfEven_of_lt_half (50001 / 10) 5000 (by norm_num) (by norm_num)]
  norm_num

/-- The concrete run whose unrounded offset is exactly 50 ms: reference
envelope `[0, 1]`, candidate delayed by one frame, 50-sample hop at a
1000 Hz rate, so one frame is exactly 50 ms. -/
lemma concreteRunAtFifty :
    computeOffsetCore ([0, 1] : List ℚ) (delayedBy ([0, 1] : List ℚ) 1) 1000 50 50 =
      (50, false) := by
  have hlag := lagOf_delayedBy ([0, 1] : List ℚ) 1 nonconst_01
  have hoff : offsetMsOf 1000 50 ((1 : ℕ) : ℤ) = 50 := by
    rw [offsetMsOf]
    norm_num
  have hflag : needsReviewOf 50 (50 : ℚ) = false := by
    show decide ((50 : ℚ) < |(50 : ℚ)|) = false
    apply decide_eq_false
    rw [abs_of_nonneg (by norm_num : (0 : ℚ) ≤ 50)]
    exact lt_irrefl 50
  rw [computeOffsetCore, hlag, hoff, round2_50, hflag]

/-- The concrete run whose unrounded offset is exactly 50.001 ms: one
frame of 50001 samples at a 1000000 Hz rate. -/
lemma concreteRunJustAboveFifty :
    computeOffsetCore ([0, 1] : List ℚ) (delayedBy ([0, 1] : List ℚ) 1)
        1000000 50001 50 = (50, true) := by
  have hlag := lagOf_delayedBy ([0, 1] : List ℚ) 1 nonconst_01
  have hoff : offsetMsOf 1000000 50001 ((1 : ℕ) : ℤ) = 50001 / 1000 := by
    rw [offsetMsOf]
    norm_num
  have hflag : needsReviewOf 50 (50001 / 1000 : ℚ) = true := by
    show decide ((50 : ℚ) < |(50001 / 1000 : ℚ)|) = true
    apply decide_eq_true
    rw [abs_of_nonneg (by norm_num : (0 : ℚ) ≤ 50001 / 1000)]
    norm_num
  rw [computeOffsetCore, hlag, hoff, round2_50001, hflag]

/-- C6, counterexample: on the non-constant raw envelope `[0, 1]` the
min-max normalization with the `1e-10` epsilon produces no value equal
to exactly `1.0` — the maximum normalized value is `1/(1 + 1e-10) < 1`
in the exact arithmetic of the formula the code uses, so the claim that
some value reaches exactly `1.0` for every non-constant input fails. -/
theorem c6_exact_one_counterexample :
    listMin ([0, 1] : List ℚ) ≠ listMax ([0, 1] : List ℚ) ∧
      ∀ v ∈ normalizeEnv ([0, 1] : List ℚ), v ≠ 1 := by
  constructor
  · norm_num [listMin, listMax, min_def, max_def]
  · intro v hv
    norm_num [normalizeEnv, listMin, listMax, min_def, max_def] at hv
    rcases hv with h | h <;> subst h <;> norm_num

/-- C6, amended: for every non-empty RMS envelope the min-max
normalization `value = (raw - min) / (max - min + 1e-10)` keeps every
value inside `[0, 1]` (indeed strictly below `1`), and the frame of
maximum energy attains the envelope's maximum normalized value
`(max - min) / (max - min + 1e-10)`; that value is strictly below `1`
rather than exactly `1.0`, the epsilon acting on every input and not
only on constant-energy ones. -/
theorem c6_normalization_bounds (e : List ℚ) (he : e ≠ []) :
    (∀ v ∈ normalizeEnv e, 0 ≤ v ∧ v < 1) ∧
      ∃ v ∈ normalizeEnv e,
        v = (listMax e - listMin e) / (listMax e - listMin e + 1 / 10000000000) ∧
          ∀ w ∈ normalizeEnv e, w ≤ v :=
  ⟨fun _ hv => normalizeEnv_mem_bounds hv, normalizeEnv_max_attained he⟩

/-- C6, witness: the amended statement instantiated at the concrete
envelope `[0, 1]`. -/
theorem c6_normalization_bounds_witness :
    (([0, 1] : List ℚ) ≠ []) ∧
      ((∀ v ∈ normalizeEnv ([0, 1] : List ℚ), 0 ≤ v ∧ v < 1) ∧
        ∃ v ∈ normalizeEnv ([0, 1] : List ℚ),
          v = (listMax ([0, 1] : List ℚ) - listMin ([0, 1] : List ℚ)) /
              (listMax ([0, 1] : List ℚ) - listMin ([0, 1] : List ℚ) + 1 / 10000000000) ∧
            ∀ w ∈ normalizeEnv ([0, 1] : List ℚ), w ≤ v) :=
  ⟨by simp, c6_normalization_bounds [0, 1] (by simp)⟩

/-- C7: the silence-trimming stage removes only leading and trailing
sub-threshold samples (a decomposition of the input into a silent
prefix, the trimmed result and a silent suffix), returns the buffer
unchanged when every sample is below threshold, never produces an empty
result from a non-empty buffer, and consequently the downstream framed
envelope is never empty. -/
theorem c7_trimmer_safety (τ : ℚ) (y : List ℚ) (hop : ℕ) (hy : y ≠ [])
    (hop0 : hop ≠ 0) :
    trimSilence τ y ≠ [] ∧
      ((∀ x ∈ y, x ^ 2 < τ) → trimSilence τ y = y) ∧
      (∃ pre suf, y = pre ++ trimSilence τ y ++ suf ∧
        (∀ x ∈ pre, x ^ 2 < τ) ∧ (∀ x ∈ suf, x ^ 2 < τ)) ∧
      chunksOf hop (trimSilence τ y) ≠ [] :=
  ⟨trimSilence_ne_nil τ hy, trimSilence_all_below τ y, trimSilence_decomp τ y,
    chunksOf_ne_nil hop hop0 (trimSilence_ne_nil τ hy)⟩

/-- C7, witness: the statement instantiated at the concrete buffer
`[0, 1, 0]` with threshold `1/100` and hop length `512`. -/
theorem c7_trimmer_safety_witness :
    (([0, 1, 0] : List ℚ) ≠ []) ∧ ((512 : ℕ) ≠ 0) ∧
      (trimSilence (1 / 100 : ℚ) [0, 1, 0] ≠ [] ∧
        ((∀ x ∈ ([0, 1, 0] : List ℚ), x ^ 2 < 1 / 100) →
          trimSilence (1 / 100 : ℚ) [0, 1, 0] = [0, 1, 0]) ∧
        (∃ pre suf, ([0, 1, 0] : List ℚ) =
            pre ++ trimSilence (1 / 100 : ℚ) [0, 1, 0] ++ suf ∧
          (∀ x ∈ pre, x ^ 2 < 1 / 100) ∧ (∀ x ∈ suf, x ^ 2 < 1 / 100)) ∧
        chunksOf 512 (trimSilence (1 / 100 : ℚ) [0, 1, 0]) ≠ []) :=
  ⟨by simp, by norm_num, c7_trimmer_safety (1 / 100) [0, 1, 0] 512 (by simp) (by norm_num)⟩

/-- C1: the lag estimator returns exactly
`(round(lag * hop / sr * 1000, 2), |offset| > threshold)` where the lag
is `argmax(correlate(test, ref, mode same)) - len(ref) // 2`; the
argmax entry is a maximizer of the correlation and every smaller index
holds a strictly smaller value (ties break to the lowest index); and
the sign convention holds: a candidate envelope whose events are the
reference's delayed by `d` frames yields lag exactly `d` and a
nonnegative offset. -/
theorem c1_lag_estimator (refEnv testEnv : List ℚ) (sr : ℚ) (hop : ℕ)
    (threshold : ℚ) (d : ℕ) (hnc : listMin refEnv ≠ listMax refEnv)
    (hsr : 0 < sr) :
    computeOffsetCore refEnv testEnv sr hop threshold =
      (round2 (offsetMsOf sr hop (lagOf refEnv testEnv)),
        needsReviewOf threshold (offsetMsOf sr hop (lagOf refEnv testEnv))) ∧
    lagOf refEnv testEnv =
      (argmaxIdx (correlateSame (normalizeEnv testEnv) (normalizeEnv refEnv)) : ℤ) -
        (refEnv.length / 2 : ℕ) ∧
    (∀ j, j < (correlateSame (normalizeEnv testEnv) (normalizeEnv refEnv)).length →
      (correlateSame (normalizeEnv testEnv) (normalizeEnv refEnv)).getD j 0 ≤
        (correlateSame (normalizeEnv testEnv) (normalizeEnv refEnv)).getD
          (argmaxIdx (correlateSame (normalizeEnv testEnv) (normalizeEnv refEnv))) 0) ∧
    (∀ j, j < argmaxIdx (correlateSame (normalizeEnv testEnv) (normalizeEnv refEnv)) →
      (correlateSame (normalizeEnv testEnv) (normalizeEnv refEnv)).getD j 0 <
        (correlateSame (normalizeEnv testEnv) (normalizeEnv refEnv)).getD
          (argmaxIdx (correlateSame (normalizeEnv testEnv) (normalizeEnv refEnv))) 0) ∧
    lagOf refEnv (delayedBy refEnv d) = d ∧
    0 ≤ offsetMsOf sr hop (lagOf refEnv (delayedBy refEnv d)) := by
  refine ⟨rfl, ?_, ?_, ?_, lagOf_delayedBy refEnv d hnc, ?_⟩
  · rw [lagOf, length_normalizeEnv]
  · intro j hj
    exact getD_le_argmaxIdx _ j hj
  · intro j hj
    exact getD_lt_argmaxIdx _ j hj
  · rw [lagOf_delayedBy refEnv d hnc, offsetMsOf]
    apply mul_nonneg _ (by norm_num : (0 : ℚ) ≤ 1000)
    apply div_nonneg _ (le_of_lt hsr)
    exact mul_nonneg (by exact_mod_cast Int.ofNat_nonneg d) (Nat.cast_nonneg hop)

/-- C1, witness: the statement instantiated at reference envelope
`[0, 1]`, candidate `[0, 1]`, the default rate and hop, threshold 50
and a one-frame delay. -/
theorem c1_lag_estimator_witness :
    (listMin ([0, 1] : List ℚ) ≠ listMax ([0, 1] : List ℚ)) ∧ ((0 : ℚ) < 22050) ∧
      (computeOffsetCore ([0, 1] : List ℚ) ([0, 1] : List ℚ) 22050 512 50 =
        (round2 (offsetMsOf 22050 512 (lagOf ([0, 1] : List ℚ) [0, 1])),
          needsReviewOf 50 (offsetMsOf 22050 512 (lagOf ([0, 1] : List ℚ) [0, 1]))) ∧
      lagOf ([0, 1] : List ℚ) [0, 1] =
        (argmaxIdx (correlateSame (normalizeEnv ([0, 1] : List ℚ))
            (normalizeEnv ([0, 1] : List ℚ))) : ℤ) -
          (([0, 1] : List ℚ).length / 2 : ℕ) ∧
      (∀ j, j < (correlateSame (normalizeEnv ([0, 1] : List ℚ))
          (normalizeEnv ([0, 1] : List ℚ))).length →
        (correlateSame (normalizeEnv ([0, 1] : List ℚ))
            (normalizeEnv ([0, 1] : List ℚ))).getD j 0 ≤
          (correlateSame (normalizeEnv ([0, 1] : List ℚ))
              (normalizeEnv ([0, 1] : List ℚ))).getD
            (argmaxIdx (correlateSame (normalizeEnv ([0, 1] : List ℚ))
              (normalizeEnv ([0, 1] : List ℚ)))) 0) ∧
      (∀ j, j < argmaxIdx (correlateSame (normalizeEnv ([0, 1] : List ℚ))
          (normalizeEnv ([0, 1] : List ℚ))) →
        (correlateSame (normalizeEnv ([0, 1] : List ℚ))
            (normalizeEnv ([0, 1] : List ℚ))).getD j 0 <
          (correlateSame (normalizeEnv ([0, 1] : List ℚ))
              (normalizeEnv ([0, 1] : List ℚ))).getD
            (argmaxIdx (correlateSame (normalizeEnv ([0, 1] : List ℚ))
              (normalizeEnv ([0, 1] : List ℚ)))) 0) ∧
      lagOf ([0, 1] : List ℚ) (delayedBy ([0, 1] : List ℚ) 1) = 1 ∧
      0 ≤ offsetMsOf 22050 512 (lagOf ([0, 1] : List ℚ) (delayedBy ([0, 1] : List ℚ) 1))) :=
  ⟨nonconst_01, by norm_num,
    c1_lag_estimator [0, 1] [0, 1] 22050 512 50 1 nonconst_01 (by norm_num)⟩

/-- C2: the review flag is strict at the 50 ms boundary.  An unrounded
offset of exactly 50 ms yields `needs_review = false` and no minor
desync issue in the spec classifier; an unrounded offset of 50.001 ms
yields `needs_review = true` and the minor desync issue; the
spec-modelled `needs_review` is true iff the issue set is non-empty,
and the code flag agrees with non-emptiness of the desync issue axis;
two concrete pipeline runs realize unrounded offsets of exactly 50 and
50.001 ms with the stated flags. -/
theorem c2_threshold_strict :
    (∀ off : ℚ, |off| = 50 →
      needsReviewOf 50 off = false ∧ ∀ s : ℚ, "minor desync" ∉ specIssues off s) ∧
    (∀ off : ℚ, |off| = 50001 / 1000 →
      needsReviewOf 50 off = true ∧ ∀ s : ℚ, "minor desync" ∈ specIssues off s) ∧
    (∀ off s : ℚ, specNeedsReview off s = true ↔ specIssues off s ≠ []) ∧
    (∀ off : ℚ, needsReviewOf 50 off = true ↔ desyncIssues off ≠ []) ∧
    computeOffsetCore ([0, 1] : List ℚ) (delayedBy ([0, 1] : List ℚ) 1) 1000 50 50 =
      (50, false) ∧
    computeOffsetCore ([0, 1] : List ℚ) (delayedBy ([0, 1] : List ℚ) 1)
        1000000 50001 50 = (50, true) := by
  refine ⟨?_, ?_, ?_, ?_, concreteRunAtFifty, concreteRunJustAboveFifty⟩
  · intro off hoff
    constructor
    · show decide ((50 : ℚ) < |off|) = false
      apply decide_eq_false
      rw [hoff]
      exact lt_irrefl 50
    · intro s
      rw [specIssues, List.mem_append]
      rintro (h | h)
      · rw [desyncIssues, hoff] at h
        norm_num at h
      · rw [scoreIssues] at h
        split_ifs at h <;> simp_all
  · intro off hoff
    constructor
    · show decide ((50 : ℚ) < |off|) = true
      apply decide_eq_true
      rw [hoff]
      norm_num
    · intro s
      rw [specIssues, List.mem_append]
      left
      rw [desyncIssues, hoff]
      norm_num
  · intro off s
    rw [specNeedsReview, Bool.not_eq_eq_eq_not, Bool.not_true,
      List.isEmpty_eq_false_iff_exists_mem]
    constructor
    · rintro ⟨x, hx⟩ hc
      rw [hc] at hx
      cases hx
    · intro h
      rcases List.exists_mem_of_ne_nil _ h with ⟨x, hx⟩
      exact ⟨x, hx⟩
  · intro off
    have hd : (needsReviewOf 50 off = true) ↔ 50 < |off| := by
      show (decide ((50 : ℚ) < |off|) = true) ↔ 50 < |off|
      exact decide_eq_true_iff
    rw [hd, desyncIssues]
    split_ifs with h1 h2
    · exact iff_of_true (by linarith) (by simp)
    · exact iff_of_true h2 (by simp)
    · exact iff_of_false h2 (by simp)

/-- C2, witness: the threshold behavior at the concrete offsets 50 and
50.001 with match score 100. -/
theorem c2_threshold_strict_witness :
    needsReviewOf 50 (50 : ℚ) = false ∧
      "minor desync" ∈ specIssues (50001 / 1000) 100 :=
  ⟨(c2_threshold_strict.1 50 (abs_of_nonneg (by norm_num))).1,
    (c2_threshold_strict.2.1 (50001 / 1000) (abs_of_nonneg (by norm_num))).2 100⟩

/-- C9: `needs_review` equals `|offset_ms| > 50` evaluated on the
unrounded offset while the reported `offset_ms` is the offset rounded
to 2 decimals; and the flag is not a function of the reported rounded
offset — two runs share the reported value 50.0 yet disagree on the
flag. -/
theorem c9_flag_decided_before_rounding :
    (∀ (refEnv testEnv : List ℚ) (sr : ℚ) (hop : ℕ),
      (computeOffsetCore refEnv testEnv sr hop 50).1 =
        round2 (offsetMsOf sr hop (lagOf refEnv testEnv)) ∧
      ((computeOffsetCore refEnv testEnv sr hop 50).2 = true ↔
        50 < |offsetMsOf sr hop (lagOf refEnv testEnv)|)) ∧
    ∃ (r₁ t₁ r₂ t₂ : List ℚ) (sr₁ sr₂ : ℚ) (h₁ h₂ : ℕ),
      (computeOffsetCore r₁ t₁ sr₁ h₁ 50).1 = (computeOffsetCore r₂ t₂ sr₂ h₂ 50).1 ∧
        (computeOffsetCore r₁ t₁ sr₁ h₁ 50).2 ≠ (computeOffsetCore r₂ t₂ sr₂ h₂ 50).2 := by
  constructor
  · intro refEnv testEnv sr hop
    refine ⟨rfl, ?_⟩
    show (decide ((50 : ℚ) < |offsetMsOf sr hop (lagOf refEnv testEnv)|) = true) ↔ _
    exact decide_eq_true_iff
  · refine ⟨[0, 1], delayedBy ([0, 1] : List ℚ) 1, [0, 1],
      delayedBy ([0, 1] : List ℚ) 1, 1000, 1000000, 50, 50001, ?_, ?_⟩
    · rw [concreteRunAtFifty, concreteRunJustAboveFifty]
    · rw [concreteRunAtFifty, concreteRunJustAboveFifty]
      simp

/-- Every default-parameter offset is a multiple of `10240/441` ms;
after rounding it is either zero (at lag zero) or at least `23.22` ms
in magnitude. -/
lemma round2_quantum (k : ℤ) :
    k = 0 ∧ round2 ((k : ℚ) * (10240 / 441)) = 0 ∨
      1161 / 50 ≤ |round2 ((k : ℚ) * (10240 / 441))| := by
  by_cases hk0 : k = 0
  · left
    refine ⟨hk0, ?_⟩
    rw [hk0]
    push_cast
    rw [zero_mul, round2_zero]
  · right
    have habs : |(k : ℚ) * (10240 / 441)| = |(k : ℚ)| * (10240 / 441) := by
      rw [abs_mul, abs_of_nonneg (by norm_num : (0 : ℚ) ≤ 10240 / 441)]
    by_cases h1 : k = 1
    · rw [h1]
      have he : ((1 : ℤ) : ℚ) * (10240 / 441) = 10240 / 441 := by push_cast; ring
      rw [he]
      have hr : round2 (10240 / 441) = 1161 / 50 := by
        rw [round2, show (10240 / 441 : ℚ) * 100 = 1024000 / 441 by ring,
          roundHalfEven_of_half_lt (1024000 / 441) 2321 (by norm_num) (by norm_num)]
        norm_num
      rw [hr, abs_of_pos (by norm_num : (0 : ℚ) < 1161 / 50)]
    · by_cases h2 : k = -1
      · rw [h2]
        have he : ((-1 : ℤ) : ℚ) * (10240 / 441) = -(10240 / 441) := by push_cast; ring
        rw [he]
        have hr : round2 (-(10240 / 441)) = -1161 / 50 := by
          rw [round2, show (-(10240 / 441) : ℚ) * 100 = -1024000 / 441 by ring,
            roundHalfEven_of_lt_half (-1024000 / 441) (-2322) (by norm_num) (by norm_num)]
          norm_num
        rw [hr, abs_of_neg (by norm_num : (-1161 / 50 : ℚ) < 0)]
        norm_num
      · have hk2 : (2 : ℚ) ≤ |(k : ℚ)| := by
          have h3 : (2 : ℤ) ≤ |k| := by
            rcases le_or_lt 0 k with hpos | hneg
            · rw [abs_of_nonneg hpos]
              omega
            · rw [abs_of_neg hneg]
              omega
          have h4 : ((2 : ℤ) : ℚ) ≤ ((|k| : ℤ) : ℚ) := by exact_mod_cast h3
          push_cast at h4
          exact h4
        have hb := abs_round2_ge ((k : ℚ) * (10240 / 441))
        rw [habs] at hb
        linarith

/-- C10: with the fixed defaults (hop 512, rate 22050) every returned
offset is `round(k * 10240/441, 2)` for the integer lag `k`,
`needs_review` is true exactly when `|k| >= 3`, and the reported offset
is either `0` or at least `23.22` ms in magnitude — nothing strictly
between `0` and `23.22` is ever reported. -/
theorem c10_offset_quantization (refEnv testEnv : List ℚ) :
    ∃ k : ℤ,
      computeOffsetCore refEnv testEnv 22050 512 50 =
        (round2 (k * (10240 / 441)), decide (3 ≤ |k|)) ∧
      (k = 0 ∧ round2 (k * (10240 / 441)) = 0 ∨
        1161 / 50 ≤ |round2 (k * (10240 / 441))|) := by
  refine ⟨lagOf refEnv testEnv, ?_, round2_quantum (lagOf refEnv testEnv)⟩
  have hoff : offsetMsOf 22050 512 (lagOf refEnv testEnv) =
      (lagOf refEnv testEnv : ℚ) * (10240 / 441) := by
    rw [offsetMsOf]
    push_cast
    ring
  rw [computeOffsetCore, hoff]
  have hflag : needsReviewOf 50 ((lagOf refEnv testEnv : ℚ) * (10240 / 441)) =
      decide (3 ≤ |lagOf refEnv testEnv|) := by
    show decide ((50 : ℚ) < |(lagOf refEnv testEnv : ℚ) * (10240 / 441)|) = _
    rw [decide_eq_decide]
    rw [abs_mul, abs_of_nonneg (by norm_num : (0 : ℚ) ≤ 10240 / 441)]
    constructor
    · intro h
      have h3 : (22050 : ℤ) < 10240 * |lagOf refEnv testEnv| := by
        have h2 : (22050 : ℚ) < 10240 * |(lagOf refEnv testEnv : ℚ)| := by linarith
        exact_mod_cast h2
      omega
    · intro h
      have h2 : (3 : ℚ) ≤ |(lagOf refEnv testEnv : ℚ)| := by
        have h3 : ((3 : ℤ) : ℚ) ≤ ((|lagOf refEnv testEnv| : ℤ) : ℚ) := by
          exact_mod_cast h
        push_cast at h3
        exact h3
      linarith
  rw [hflag]

lemma processBatch_all_ok (cands : List (String × ℚ × Bool)) :
    processBatch (cands.map (fun c => (c.1, Except.ok c.2))) =
      .ok (cands.map fun c => resultEntry c.1 c.2) := by
  induction cands with
  | nil => rfl
  | cons c cs ih => simp [processBatch, ih]

/-- C3, counterexample: in the batch of three candidates where only
the second fails, the response is a single error payload and carries no
result entry for the first or the third candidate — the per-candidate
loop returns the error response immediately instead of isolating the
failure. -/
theorem c3_batch_abort_counterexample :
    uploadResponse "ref" [("a", .ok (0, false)), ("b", .error "corrupt"),
        ("c", .ok (0, false))] =
      JVal.obj [("error", JVal.s "Error processing b: corrupt")] ∧
    hasEntryFor (uploadResponse "ref" [("a", .ok (0, false)), ("b", .error "corrupt"),
      ("c", .ok (0, false))]) "a" = false ∧
    hasEntryFor (uploadResponse "ref" [("a", .ok (0, false)), ("b", .error "corrupt"),
      ("c", .ok (0, false))]) "c" = false :=
  ⟨rfl, rfl, rfl⟩

/-- C3, amended: a per-candidate failure aborts the whole batch — for
any request whose second candidate fails, the response is the single
error payload naming that candidate, and the successfully processed
first and third candidates receive no result or error entry of their
own. -/
theorem c3_batch_abort (refName n1 n2 n3 : String) (r1 r3 : ℚ × Bool) (e : String) :
    uploadResponse refName [(n1, .ok r1), (n2, .error e), (n3, .ok r3)] =
      JVal.obj [("error", JVal.s ("Error processing " ++ n2 ++ ": " ++ e))] ∧
    hasEntryFor (uploadResponse refName
      [(n1, .ok r1), (n2, .error e), (n3, .ok r3)]) n1 = false ∧
    hasEntryFor (uploadResponse refName
      [(n1, .ok r1), (n2, .error e), (n3, .ok r3)]) n3 = false := by
  have hpb : processBatch [(n1, .ok r1), (n2, .error e), (n3, .ok r3)] =
      .error ("Error processing " ++ n2 ++ ": " ++ e) := by
    simp [processBatch]
  have hresp : uploadResponse refName [(n1, .ok r1), (n2, .error e), (n3, .ok r3)] =
      JVal.obj [("error", JVal.s ("Error processing " ++ n2 ++ ": " ++ e))] := by
    rw [uploadResponse, hpb]
  refine ⟨hresp, ?_, ?_⟩ <;> rw [hresp] <;> rfl

/-- C4, counterexample: the successful result entry holds exactly the
keys filename, offset_ms and needs_review; it has no match_confidence
field and no issues field, so the claimed response structure fails on
the code. -/
theorem c4_fields_counterexample :
    keysOf (resultEntry "a" (0, false)) = ["filename", "offset_ms", "needs_review"] ∧
    "match_confidence" ∉ keysOf (resultEntry "a" (0, false)) ∧
    "issues" ∉ keysOf (resultEntry "a" (0, false)) ∧
    uploadResponse "ref" [("a", .ok (0, false))] =
      JVal.obj [("reference", JVal.s "ref"),
        ("results", JVal.arr [resultEntry "a" (0, false)])] := by
  refine ⟨rfl, ?_, ?_, rfl⟩ <;> simp [keysOf, resultEntry]

/-- C4, amended: a fully successful request returns the reference name
and one entry per candidate in input order, each entry carrying exactly
the fields filename, offset_ms and needs_review (match_confidence and
issues are not produced); a failed batch returns an error payload
instead. -/
theorem c4_response_shape (refName : String) (cands : List (String × ℚ × Bool)) :
    uploadResponse refName (cands.map (fun c => (c.1, Except.ok c.2))) =
      JVal.obj [("reference", JVal.s refName),
        ("results", JVal.arr (cands.map fun c => resultEntry c.1 c.2))] ∧
    (∀ c ∈ cands, keysOf (resultEntry c.1 c.2) =
      ["filename", "offset_ms", "needs_review"]) ∧
    ∀ (cs : List (String × Except String (ℚ × Bool))) (msg : String),
      processBatch cs = .error msg →
        uploadResponse refName cs = JVal.obj [("error", JVal.s msg)] := by
  refine ⟨?_, ?_, ?_⟩
  · rw [uploadResponse, processBatch_all_ok]
  · intro c _
    rfl
  · intro cs msg h
    rw [uploadResponse, h]

/-- C4, witness: the amended statement instantiated at one reference
and one successful candidate, plus the error case at a concrete failed
batch. -/
theorem c4_response_shape_witness :
    (uploadResponse "ref" ([("a", (0 : ℚ), false)].map (fun c => (c.1, Except.ok c.2))) =
      JVal.obj [("reference", JVal.s "ref"),
        ("results", JVal.arr ([("a", (0 : ℚ), false)].map fun c => resultEntry c.1 c.2))]) ∧
    keysOf (resultEntry "a" ((0 : ℚ), false)) = ["filename", "offset_ms", "needs_review"] ∧
    uploadResponse "ref" [("bad", Except.error "boom")] =
      JVal.obj [("error", JVal.s "Error processing bad: boom")] :=
  ⟨(c4_response_shape "ref" [("a", (0 : ℚ), false)]).1,
    (c4_response_shape "ref" [("a", (0 : ℚ), false)]).2.1 ("a", (0 : ℚ), false)
      (List.mem_singleton.mpr rfl),
    (c4_response_shape "ref" [("a", (0 : ℚ), false)]).2.2 [("bad", Except.error "boom")]
      "Error processing bad: boom" (by simp [processBatch])⟩

/-- C8: the decode stage fails for that pair when the decoder raises
(unreadable or unsupported input, modelled as an error-valued load) and
when a file decodes to zero samples — the zero-sample case raises the
explicit emptiness error of lines 32-33 rather than producing an empty
buffer — while two non-empty decodes always reach a successful offset
result. -/
theorem c8_decode_errors (τ : ℝ) (sr : ℚ) (hop : ℕ) (threshold : ℚ) :
    (∀ (e : String) (other : Except String (List ℝ)),
      computeOffset (.error e) other τ sr hop threshold =
        .error ("Failed to process audio: " ++ e)) ∧
    (∀ (e : String) (r : List ℝ),
      computeOffset (.ok r) (.error e) τ sr hop threshold =
        .error ("Failed to process audio: " ++ e)) ∧
    (∀ t : List ℝ, computeOffset (.ok []) (.ok t) τ sr hop threshold =
      .error
        ("Failed to process audio: One of the audio files is empty or could not be loaded")) ∧
    (∀ r : List ℝ, computeOffset (.ok r) (.ok []) τ sr hop threshold =
      .error
        ("Failed to process audio: One of the audio files is empty or could not be loaded")) ∧
    (∀ r t : List ℝ, r ≠ [] → t ≠ [] →
      ∃ p, computeOffset (.ok r) (.ok t) τ sr hop threshold = .ok p) := by
  refine ⟨fun e other => rfl, fun e r => rfl, fun t => rfl, ?_, ?_⟩
  · intro r
    have hm : computeOffset (.ok r) (.ok ([] : List ℝ)) τ sr hop threshold =
        if r.length = 0 ∨ ([] : List ℝ).length = 0 then
          .error
            ("Failed to process audio: One of the audio files is empty or could not be loaded")
        else
          .ok (computeOffsetCore (rmsFrames (trimSilence τ r) hop)
            (rmsFrames (trimSilence τ ([] : List ℝ)) hop) sr hop threshold) := rfl
    rw [hm, if_pos (show r.length = 0 ∨ ([] : List ℝ).length = 0 from Or.inr rfl)]
  · intro r t hr ht
    have hm : computeOffset (.ok r) (.ok t) τ sr hop threshold =
        if r.length = 0 ∨ t.length = 0 then
          .error
            ("Failed to process audio: One of the audio files is empty or could not be loaded")
        else
          .ok (computeOffsetCore (rmsFrames (trimSilence τ r) hop)
            (rmsFrames (trimSilence τ t) hop) sr hop threshold) := rfl
    rw [hm, if_neg]
    · exact ⟨_, rfl⟩
    · rintro (h | h)
      · exact hr (List.length_eq_zero.mp h)
      · exact ht (List.length_eq_zero.mp h)

/-- C8, witness: the statement instantiated at threshold 1/100, the
default rate, hop and review threshold, with a failed reference decode
and with a zero-sample decode. -/
theorem c8_decode_errors_witness :
    computeOffset (.error "boom") (.ok [1]) (1 / 100 : ℝ) 22050 512 50 =
      .error ("Failed to process audio: " ++ "boom") ∧
    computeOffset (.ok []) (.ok [1]) (1 / 100 : ℝ) 22050 512 50 =
      .error
        ("Failed to process audio: One of the audio files is empty or could not be loaded") ∧
    (([1] : List ℝ) ≠ [] ∧
      ∃ p, computeOffset (.ok [1]) (.ok [1]) (1 / 100 : ℝ) 22050 512 50 = .ok p) :=
  ⟨(c8_decode_errors (1 / 100) 22050 512 50).1 "boom" (.ok [1]),
    (c8_decode_errors (1 / 100) 22050 512 50).2.2.1 [1],
    by simp,
    (c8_decode_errors (1 / 100) 22050 512 50).2.2.2.2 [1] [1] (by simp) (by simp)⟩

lemma computeOffset_ok (ref test : List ℝ) (τ : ℝ) (sr : ℚ) (hop : ℕ)
    (threshold : ℚ) (hr : ref ≠ []) (ht : test ≠ []) :
    computeOffset (.ok ref) (.ok test) τ sr hop threshold =
      .ok (computeOffsetCore (rmsFrames (trimSilence τ ref) hop)
        (rmsFrames (trimSilence τ test) hop) sr hop threshold) := by
  have hm : computeOffset (.ok ref) (.ok test) τ sr hop threshold =
      if ref.length = 0 ∨ test.length = 0 then
        .error
          ("Failed to process audio: One of the audio files is empty or could not be loaded")
      else
        .ok (computeOffsetCore (rmsFrames (trimSilence τ ref) hop)
          (rmsFrames (trimSilence τ test) hop) sr hop threshold) := rfl
  rw [hm, if_neg]
  rintro (h | h)
  · exact hr (List.length_eq_zero.mp h)
  · exact ht (List.length_eq_zero.mp h)

lemma computeOffsetCore_self (E : List ℝ) (sr : ℚ) (hop : ℕ)
    (hnc : listMin E ≠ listMax E) :
    computeOffsetCore E E sr hop 50 = (0, false) := by
  rw [computeOffsetCore, lagOf_self E hnc]
  have hoff : offsetMsOf sr hop 0 = 0 := by
    rw [offsetMsOf]
    push_cast
    ring
  have hflag : needsReviewOf 50 (0 : ℚ) = false := by
    show decide ((50 : ℚ) < |(0 : ℚ)|) = false
    apply decide_eq_false
    norm_num
  rw [hoff, round2_zero, hflag]

lemma trimSilence_of_loud_ends (τ : α) {y : List α} {x z : α} {xs zs : List α}
    (hy : y = x :: xs) (hyr : y.reverse = z :: zs)
    (hx : ¬ x ^ 2 < τ) (hz : ¬ z ^ 2 < τ) : trimSilence τ y = y := by
  have h1 : y.dropWhile (fun a => decide (a ^ 2 < τ)) = y := by
    rw [hy, List.dropWhile_cons, if_neg (fun hc => hx (of_decide_eq_true hc))]
  have h2 : y.reverse.dropWhile (fun a => decide (a ^ 2 < τ)) = y.reverse := by
    rw [hyr, List.dropWhile_cons, if_neg (fun hc => hz (of_decide_eq_true hc))]
  rw [trimSilence, h1, h2, List.reverse_reverse, ite_self]

lemma chunksOf_nil {β : Type} (k : ℕ) : chunksOf k ([] : List β) = [] := by
  rw [chunksOf]

lemma chunksOf_of_ne_nil {β : Type} (k : ℕ) {l : List β} (hk : k ≠ 0) (hl : l ≠ []) :
    chunksOf k l = l.take k :: chunksOf k (l.drop k) := by
  cases l with
  | nil => exact absurd rfl hl
  | cons x xs => rw [chunksOf_cons, if_neg hk]

lemma chunksOf_replicate_self {β : Type} (k : ℕ) (hk : k ≠ 0) (b : β) :
    chunksOf k (List.replicate k b) = [List.replicate k b] := by
  have hne : List.replicate k b ≠ [] := by
    intro hc
    apply hk
    simpa using congrArg List.length hc
  rw [chunksOf_of_ne_nil k hk hne, List.take_replicate, min_self, List.drop_replicate,
    Nat.sub_self, List.replicate_zero, chunksOf_nil]

lemma chunksOf_two_blocks {β : Type} (k : ℕ) (hk : k ≠ 0) (a b : β) :
    chunksOf k (List.replicate k a ++ List.replicate k b) =
      [List.replicate k a, List.replicate k b] := by
  have hne : List.replicate k a ++ List.replicate k b ≠ [] := by
    intro hc
    apply hk
    simpa using congrArg List.length (List.append_eq_nil.mp hc).1
  rw [chunksOf_of_ne_nil k hk hne, List.take_left' (List.length_replicate k a),
    List.drop_left' (List.length_replicate k a), chunksOf_replicate_self k hk b]

lemma rms_of_replicate (k : ℕ) (hk : k ≠ 0) (c : ℝ) (hc : 0 ≤ c) :
    Real.sqrt (((List.replicate k c).map (fun x => x ^ 2)).sum /
      (List.replicate k c).length) = c := by
  rw [List.map_replicate, List.sum_replicate, List.length_replicate, nsmul_eq_mul,
    mul_div_cancel_left₀ _ (Nat.cast_ne_zero.mpr hk : (k : ℝ) ≠ 0), Real.sqrt_sq hc]

lemma getZ_zero_pair (i : ℤ) : getZ ([0, 0] : List α) i = 0 := by
  unfold getZ
  split
  · have h : ∀ n : ℕ, List.getD ([0, 0] : List α) n 0 = 0 := by
      intro n
      rcases n with _ | _ | n <;> rfl
    exact h _
  · rfl

lemma corrAt_right_zero_pair (a : List α) (L : ℤ) :
    corrAt a ([0, 0] : List α) L = 0 := by
  rw [corrAt]
  apply Finset.sum_eq_zero
  intro n _
  rw [getZ_zero_pair, mul_zero]

lemma correlateSame_zero_pair :
    correlateSame ([0, 0] : List α) ([0, 0] : List α) = [0, 0] := by
  rw [correlateSame]
  rw [show (([0, 0] : List α)).length = 2 from rfl]
  rw [show List.range 2 = [0, 1] from rfl, List.map_cons, List.map_cons, List.map_nil,
    corrAt_right_zero_pair, corrAt_right_zero_pair]

lemma argmaxIdx_zero_pair : argmaxIdx ([0, 0] : List α) = 0 := by
  rw [argmaxIdx_cons, if_pos]
  show listMax ([0, 0] : List α) ≤ 0
  rw [show listMax ([0, 0] : List α) = max 0 0 from rfl, max_self]

lemma normalizeEnv_pair_const (c : α) : normalizeEnv [c, c] = [0, 0] := by
  rw [normalizeEnv]
  rw [show listMin ([c, c] : List α) = min c c from rfl,
    show listMax ([c, c] : List α) = max c c from rfl, min_self, max_self]
  rw [List.map_cons, List.map_cons, List.map_nil, sub_self, zero_div]

lemma lagOf_pair_const (c : ℝ) : lagOf [c, c] [c, c] = -1 := by
  rw [lagOf, normalizeEnv_pair_const, correlateSame_zero_pair, argmaxIdx_zero_pair]
  decide

lemma computeOffsetCore_pair_const (c : ℝ) :
    computeOffsetCore [c, c] [c, c] 22050 512 50 = (-1161 / 50, false) := by
  rw [computeOffsetCore, lagOf_pair_const]
  have hoff : offsetMsOf 22050 512 (-1) = -(10240 / 441) := by
    rw [offsetMsOf]
    push_cast
    norm_num
  have hr : round2 (-(10240 / 441)) = -1161 / 50 := by
    rw [round2, show (-(10240 / 441) : ℚ) * 100 = -1024000 / 441 by ring,
      roundHalfEven_of_lt_half (-1024000 / 441) (-2322) (by norm_num) (by norm_num)]
    norm_num
  have hflag : needsReviewOf 50 (-(10240 / 441) : ℚ) = false := by
    show decide ((50 : ℚ) < |(-(10240 / 441) : ℚ)|) = false
    apply decide_eq_false
    rw [abs_neg, abs_of_nonneg (by norm_num : (0 : ℚ) ≤ 10240 / 441)]
    norm_num
  rw [hoff, hr, hflag]

/-- C5, counterexample: a decodable, non-silent file of 1024 constant
samples at amplitude one half, compared against itself with the default
parameters, reports an offset of -23.22 ms rather than 0.0 — the
constant RMS envelope normalizes to all zeros, every correlation value
ties at zero, and the lowest-index tie-break lands one frame left of
center. -/
theorem c5_identity_counterexample :
    computeOffset (.ok (List.replicate 1024 ((1 : ℝ) / 2)))
        (.ok (List.replicate 1024 ((1 : ℝ) / 2))) (1 / 100) 22050 512 50 =
      .ok (-1161 / 50, false) ∧ (-1161 / 50 : ℚ) ≠ 0 := by
  constructor
  · have hne : List.replicate 1024 ((1 : ℝ) / 2) ≠ [] := by
      intro hc
      have h2 : (List.replicate 1024 ((1 : ℝ) / 2)).length = 0 := by
        rw [hc]
        rfl
      rw [List.length_replicate] at h2
      omega
    rw [computeOffset_ok _ _ _ _ _ _ hne hne]
    have htrim : trimSilence ((1 : ℝ) / 100) (List.replicate 1024 ((1 : ℝ) / 2)) =
        List.replicate 1024 ((1 : ℝ) / 2) := by
      apply trimSilence_of_loud_ends ((1 : ℝ) / 100)
        (show List.replicate 1024 ((1 : ℝ) / 2) = (1 / 2) :: List.replicate 1023 (1 / 2) by
          rw [show (1024 : ℕ) = 1023 + 1 by norm_num, List.replicate_succ])
        (show (List.replicate 1024 ((1 : ℝ) / 2)).reverse =
            (1 / 2) :: List.replicate 1023 (1 / 2) by
          rw [List.reverse_replicate, show (1024 : ℕ) = 1023 + 1 by norm_num,
            List.replicate_succ])
      · norm_num
      · norm_num
    have hsplit : List.replicate 1024 ((1 : ℝ) / 2) =
        List.replicate 512 ((1 : ℝ) / 2) ++ List.replicate 512 ((1 : ℝ) / 2) := by
      rw [← List.replicate_add]
    have hrms : rmsFrames (List.replicate 1024 ((1 : ℝ) / 2)) 512 =
        [1 / 2, 1 / 2] := by
      rw [rmsFrames, hsplit, chunksOf_two_blocks 512 (by norm_num), List.map_cons,
        List.map_cons, List.map_nil, rms_of_replicate 512 (by norm_num) (1 / 2) (by norm_num)]
    rw [htrim, hrms, computeOffsetCore_pair_const]
  · norm_num

/-- C5, amended: comparing a decodable, non-silent file against itself
yields `offset_ms = 0.0` and `needs_review = false` provided the file's
trimmed RMS envelope is not constant; for a constant-envelope file the
estimator instead reports a nonzero offset (see the counterexample).
The match confidence of 100 and the empty issue set hold for the
spec-modelled fingerprint service (byte-identical override) and
classifier; the code itself reports neither field. -/
theorem c5_identity (y : List ℝ) (τ : ℝ) (sr : ℚ) (hop : ℕ) (hy : y ≠ [])
    (hnc : listMin (rmsFrames (trimSilence τ y) hop) ≠
      listMax (rmsFrames (trimSilence τ y) hop)) :
    computeOffset (.ok y) (.ok y) τ sr hop 50 = .ok (0, false) ∧
    (∀ (bytes : List ℕ) (base : ℚ), specMatchScore bytes bytes base = 100) ∧
    specIssues 0 100 = [] ∧
    specNeedsReview 0 100 = false := by
  have hiss : specIssues 0 100 = [] := by
    rw [specIssues, desyncIssues, scoreIssues]
    norm_num
  refine ⟨?_, ?_, hiss, ?_⟩
  · rw [computeOffset_ok y y τ sr hop 50 hy hy, computeOffsetCore_self _ sr hop hnc]
  · intro bytes base
    rw [specMatchScore, if_pos rfl]
  · rw [specNeedsReview, hiss]
    rfl

/-- C5, witness: the amended statement instantiated at a 1024-sample
file whose two 512-sample halves have amplitudes one half and three
fifths, so its RMS envelope `[1/2, 3/5]` is not constant. -/
theorem c5_identity_witness :
    (List.replicate 512 ((1 : ℝ) / 2) ++ List.replicate 512 ((3 : ℝ) / 5) ≠ []) ∧
    (listMin (rmsFrames (trimSilence ((1 : ℝ) / 100)
        (List.replicate 512 ((1 : ℝ) / 2) ++ List.replicate 512 ((3 : ℝ) / 5))) 512) ≠
      listMax (rmsFrames (trimSilence ((1 : ℝ) / 100)
        (List.replicate 512 ((1 : ℝ) / 2) ++ List.replicate 512 ((3 : ℝ) / 5))) 512)) ∧
    (computeOffset
        (.ok (List.replicate 512 ((1 : ℝ) / 2) ++ List.replicate 512 ((3 : ℝ) / 5)))
        (.ok (List.replicate 512 ((1 : ℝ) / 2) ++ List.replicate 512 ((3 : ℝ) / 5)))
        (1 / 100) 22050 512 50 = .ok (0, false) ∧
      (∀ (bytes : List ℕ) (base : ℚ), specMatchScore bytes bytes base = 100) ∧
      specIssues 0 100 = [] ∧
      specNeedsReview 0 100 = false) := by
  have hne : List.replicate 512 ((1 : ℝ) / 2) ++ List.replicate 512 ((3 : ℝ) / 5) ≠ [] := by
    intro hc
    have h2 : (List.replicate 512 ((1 : ℝ) / 2) ++ List.replicate 512 ((3 : ℝ) / 5)).length = 0 := by
      rw [hc]
      rfl
    rw [List.length_append, List.length_replicate, List.length_replicate] at h2
    omega
  have htrim : trimSilence ((1 : ℝ) / 100)
      (List.replicate 512 ((1 : ℝ) / 2) ++ List.replicate 512 ((3 : ℝ) / 5)) =
      List.replicate 512 ((1 : ℝ) / 2) ++ List.replicate 512 ((3 : ℝ) / 5) := by
    apply trimSilence_of_loud_ends ((1 : ℝ) / 100)
      (show List.replicate 512 ((1 : ℝ) / 2) ++ List.replicate 512 ((3 : ℝ) / 5) =
          (1 / 2) :: (List.replicate 511 (1 / 2) ++ List.replicate 512 (3 / 5)) by
        rw [show (512 : ℕ) = 511 + 1 by norm_num, List.replicate_succ, List.cons_append])
      (show (List.replicate 512 ((1 : ℝ) / 2) ++ List.replicate 512 ((3 : ℝ) / 5)).reverse =
          (3 / 5) :: (List.replicate 511 (3 / 5) ++ List.replicate 512 (1 / 2)) by
        rw [List.reverse_append, List.reverse_replicate, List.reverse_replicate,
          show (512 : ℕ) = 511 + 1 by norm_num, List.replicate_succ, List.cons_append])
    · norm_num
    · norm_num
  have hrms : rmsFrames
      (List.replicate 512 ((1 : ℝ) / 2) ++ List.replicate 512 ((3 : ℝ) / 5)) 512 =
      [1 / 2, 3 / 5] := by
    rw [rmsFrames, chunksOf_two_blocks 512 (by norm_num), List.map_cons, List.map_cons,
      List.map_nil, rms_of_replicate 512 (by norm_num) (1 / 2) (by norm_num),
      rms_of_replicate 512 (by norm_num) (3 / 5) (by norm_num)]
  have hnc : listMin (rmsFrames (trimSilence ((1 : ℝ) / 100)
      (List.replicate 512 ((1 : ℝ) / 2) ++ List.replicate 512 ((3 : ℝ) / 5))) 512) ≠
      listMax (rmsFrames (trimSilence ((1 : ℝ) / 100)
      (List.replicate 512 ((1 : ℝ) / 2) ++ List.replicate 512 ((3 : ℝ) / 5))) 512) := by
    rw [htrim, hrms]
    rw [show listMin ([1 / 2, 3 / 5] : List ℝ) = min (1 / 2) (3 / 5) from rfl,
      show listMax ([1 / 2, 3 / 5] : List ℝ) = max (1 / 2) (3 / 5) from rfl]
    norm_num [min_def, max_def]
  exact ⟨hne, hnc, c5_identity _ (1 / 100) 22050 512 hne hnc⟩

end AudioSync
